import Mathlib

/-!
Verification of the image-acquisition and rootfs-materialization pipeline of
`android_docker/create_rootfs_tar.py` (class `DockerRegistryClient` and class
`DockerImageToRootFS`).  Python strings are modelled as `List Char`, Python
dicts as association lists, JSON values as an inductive `Json` type, and the
filesystem / network effects as explicit state passed through the functions.
Each definition is translated from the corresponding function of the source
file; the theorems at the end settle the specification claims.
-/

namespace AndroidDocker

/-- Characters of a Python string. -/
abbrev Chars := List Char

/-- Python `s.startswith(pat)` on char lists (first argument is the string,
second is the pattern). -/
def startsWith : Chars → Chars → Bool
  | _, [] => true
  | [], _ :: _ => false
  | x :: xs, p :: ps => x = p && startsWith xs ps

/-- Python `pat in s` (substring containment) on char lists. -/
def containsSub (pat : Chars) : Chars → Bool
  | [] => startsWith [] pat
  | x :: xs => startsWith (x :: xs) pat || containsSub pat xs

/-- Python `pat in s` for `String`s. -/
def strContains (s pat : String) : Bool := containsSub pat.data s.data

/-- JSON values, as produced by `json.loads` in the source. Objects keep the
key order of the document; Python dicts have unique keys, lookups return the
first binding. -/
inductive Json where
  | null
  | bool (b : Bool)
  | num (n : Int)
  | str (s : String)
  | arr (elems : List Json)
  | obj (fields : List (String × Json))

/-- Python `d.get(key)` on an object's field list. -/
def getk : List (String × Json) → String → Option Json
  | [], _ => none
  | (k, v) :: rest, key => if k = key then some v else getk rest key

/-- Python `d[key] = v`: replace the binding if the key is present, append it
otherwise. -/
def setk : List (String × Json) → String → Json → List (String × Json)
  | [], key, v => [(key, v)]
  | (k, w) :: rest, key, v =>
    if k = key then (key, v) :: rest else (k, w) :: setk rest key v

/-- Python `if key not in d: d[key] = v` as used by
`_convert_docker_config_to_oci`. -/
def setDefault (o : List (String × Json)) (k : String) (v : Json) :
    List (String × Json) :=
  if (getk o k).isSome then o else o ++ [(k, v)]

/-- Default `rootfs` value injected by `_convert_docker_config_to_oci`. -/
def defaultRootfs : Json :=
  Json.obj [("type", Json.str "layers"), ("diff_ids", Json.arr [])]

/-- Embedding of `DockerImageToRootFS._convert_docker_config_to_oci`: copy the
parsed config object and inject defaults for the keys `architecture`, `os`,
`config`, `rootfs` and `history` when they are absent. -/
def convert_docker_config_to_oci (c : List (String × Json)) :
    List (String × Json) :=
  setDefault (setDefault (setDefault (setDefault (setDefault c
    "architecture" (Json.str "amd64"))
    "os" (Json.str "linux"))
    "config" (Json.obj []))
    "rootfs" defaultRootfs)
    "history" (Json.arr [])

def dockerLayerGzip : String := "application/vnd.docker.image.rootfs.diff.tar.gzip"
def ociLayerGzip : String := "application/vnd.oci.image.layer.v1.tar+gzip"
def dockerLayerTar : String := "application/vnd.docker.image.rootfs.diff.tar"
def ociLayerTar : String := "application/vnd.oci.image.layer.v1.tar"
def dockerConfigType : String := "application/vnd.docker.container.image.v1+json"
def ociConfigType : String := "application/vnd.oci.image.config.v1+json"
def ociManifestType : String := "application/vnd.oci.image.manifest.v1+json"

/-- Media-type rewrite of a single layer descriptor, from the loop body of
`_convert_manifest_to_oci` (`layer.get('mediaType') == ...` comparisons). -/
def rewriteLayer (j : Json) : Json :=
  match j with
  | Json.obj l =>
    match getk l "mediaType" with
    | some (Json.str mt) =>
      if mt = dockerLayerGzip then Json.obj (setk l "mediaType" (Json.str ociLayerGzip))
      else if mt = dockerLayerTar then Json.obj (setk l "mediaType" (Json.str ociLayerTar))
      else Json.obj l
    | _ => Json.obj l
  | j => j

/-- Embedding of `DockerImageToRootFS._convert_manifest_to_oci`.  When the
response content type does not contain the substring `docker` the manifest is
returned unchanged (the source's early `return manifest`); otherwise the layer
and config media types are rewritten and the manifest's own `mediaType` is set
to the OCI manifest media type. -/
def convert_manifest_to_oci (m : List (String × Json)) (contentType : String) :
    List (String × Json) :=
  if strContains contentType "docker" = false then m
  else
    let m1 :=
      match getk m "layers" with
      | some (Json.arr ls) => setk m "layers" (Json.arr (ls.map rewriteLayer))
      | _ => m
    let m2 :=
      match getk m1 "config" with
      | some (Json.obj c) =>
        match getk c "mediaType" with
        | some (Json.str mt) =>
          if mt = dockerConfigType then
            setk m1 "config" (Json.obj (setk c "mediaType" (Json.str ociConfigType)))
          else m1
        | _ => m1
      | _ => m1
    setk m2 "mediaType" (Json.str ociManifestType)

/-- `platform` object of a manifest-list entry. -/
structure Platform where
  architecture : Option String
  os : Option String
deriving DecidableEq

/-- One entry of a manifest list (`manifest.get('manifests', [])`). -/
structure MDesc where
  platform : Option Platform
  digest : String
deriving DecidableEq

/-- `manifest_descriptor.get('platform', {}).get('architecture')`. -/
def archOf (m : MDesc) : Option String := m.platform.bind (·.architecture)

/-- `platform_info.get('os')`. -/
def osOf (m : MDesc) : Option String := m.platform.bind (·.os)

/-- Match condition of the selection loop in
`_download_image_with_python`: the entry's architecture equals the requested
one, and its `os` is `linux` or the `os` key is absent. -/
def descMatches (target : String) (m : MDesc) : Bool :=
  decide (archOf m = some target) &&
    (decide (osOf m = some "linux") || (osOf m).isNone)

/-- Platform resolution over a manifest list, from
`_download_image_with_python`: the first entry satisfying `descMatches` is
selected; if none matches a `ValueError` carrying the architectures of every
entry is raised. -/
def selectManifest (target : String) (ms : List MDesc) :
    Except (List (Option String)) MDesc :=
  match ms.find? (fun m => descMatches target m) with
  | some d => Except.ok d
  | none => Except.error (ms.map archOf)

/-- Path of the follow-up manifest request
(`client._make_registry_request(f"{client.image_name}/manifests/{target_digest}")`). -/
def resolve_submanifest_path (imageName target : String) (ms : List MDesc) :
    Except (List (Option String)) String :=
  match selectManifest target ms with
  | Except.ok d => Except.ok (imageName ++ "/manifests/" ++ d.digest)
  | Except.error e => Except.error e

/-- Member kinds of a tar archive entry, as distinguished by
`_safe_extract_tar` (`isdev`, `isfifo`, `islnk`, `isfile`, `isdir`,
`issym`). -/
inductive MKind where
  | file (content : String)
  | dir
  | symlink (target : Chars)
  | hardlink (linkname : List Chars)
  | dev
  | fifo
deriving DecidableEq

/-- A tar member. `segs` are the `/`-separated components of `member.name`
(segments contain no `/`), `absolute` records a leading `/`; with that
encoding `member.name.startswith('/')` is `absolute`, and `'..' in
member.name` holds exactly when some segment contains `..` as a substring,
because the separator `/` prevents `..` from straddling two segments. -/
structure TarMember where
  segs : List Chars
  absolute : Bool
  kind : MKind
deriving DecidableEq

/-- Entries of the destination tree. `hardlinkTo` stands for an actual
filesystem hardlink; the theorems show the extractor never creates one. -/
inductive Entry where
  | file (content : String)
  | dir
  | symlink (target : Chars)
  | hardlinkTo (target : List Chars)
deriving DecidableEq

/-- Destination tree: resolved path (list of segments) to entry, latest
binding first. -/
abbrev FS := List (List Chars × Entry)

def lookupFS : FS → List Chars → Option Entry
  | [], _ => none
  | (q, e) :: rest, p => if q = p then some e else lookupFS rest p

def insertFS (fs : FS) (p : List Chars) (e : Entry) : FS := (p, e) :: fs

/-- Resolution of `os.path.join(rootfs_dir, member.name)` by the kernel:
empty and `.` segments are dropped, `..` pops the last accumulated
segment. -/
def normSegs : List Chars → List Chars → List Chars
  | acc, [] => acc
  | acc, s :: rest =>
    if s = [] ∨ s = ['.'] then normSegs acc rest
    else if s = ['.', '.'] then normSegs acc.dropLast rest
    else normSegs (acc ++ [s]) rest

/-- A resolved path lies within the rootfs when it extends the root's
segments. -/
def withinRoot (root p : List Chars) : Prop := ∃ t, p = root ++ t

/-- Unsafe-path test of `extract_filter` in `_safe_extract_tar`:
`member.name.startswith('/') or '..' in member.name`. -/
def isUnsafeName (m : TarMember) : Bool :=
  m.absolute || m.segs.any (fun s => containsSub ['.', '.'] s)

/-- `extract_filter`: device and FIFO members are dropped, then unsafe paths
are dropped; every other member is kept (the Android permission rewrite only
mutates modes/owners, not which members are materialized). -/
def extract_filter (m : TarMember) : Bool :=
  match m.kind with
  | MKind.dev => false
  | MKind.fifo => false
  | _ => !(isUnsafeName m)

/-- Embedding of `DockerImageToRootFS._handle_hardlink`: if the link target
exists as a regular file its content is copied to the member's path as an
ordinary file (`shutil.copy2`); a missing target is skipped; a non-regular
target makes `copy2` raise, which the surrounding `except` swallows leaving
the tree unchanged. -/
def handle_hardlink (root : List Chars) (fs : FS) (m : TarMember)
    (link : List Chars) : FS × List (List Chars) :=
  match lookupFS fs (normSegs root link) with
  | some (Entry.file c) =>
    (insertFS fs (normSegs root m.segs) (Entry.file c), [normSegs root m.segs])
  | some _ => (fs, [])
  | none => (fs, [])

/-- Body of the member loop of `_safe_extract_tar`: apply the filter, route
hardlinks through `_handle_hardlink`, extract everything else at
`os.path.join(rootfs_dir, member.name)`; the manual per-member fallbacks
write to the same joined path, so the written locations are identical to the
primary path. Returns the updated tree and the written paths. -/
def process_member (root : List Chars) (fs : FS) (m : TarMember) :
    FS × List (List Chars) :=
  if extract_filter m then
    match m.kind with
    | MKind.hardlink link => handle_hardlink root fs m link
    | MKind.file c =>
      (insertFS fs (normSegs root m.segs) (Entry.file c), [normSegs root m.segs])
    | MKind.dir =>
      (insertFS fs (normSegs root m.segs) Entry.dir, [normSegs root m.segs])
    | MKind.symlink t =>
      (insertFS fs (normSegs root m.segs) (Entry.symlink t), [normSegs root m.segs])
    | MKind.dev => (fs, [])
    | MKind.fifo => (fs, [])
  else (fs, [])

/-- Embedding of `DockerImageToRootFS._safe_extract_tar`: process the
archive's members in order. -/
def safe_extract_tar (root : List Chars) : FS → List TarMember →
    FS × List (List Chars)
  | fs, [] => (fs, [])
  | fs, m :: rest =>
    ((safe_extract_tar root (process_member root fs m).1 rest).1,
     (process_member root fs m).2 ++
       (safe_extract_tar root (process_member root fs m).1 rest).2)

/-- Layer/config descriptor as consumed by `_download_layers`
(`layer.get('digest') or layer.get('blobSum')`). -/
structure LayerDesc where
  digest : Option Chars
  blobSum : Option Chars
deriving DecidableEq

/-- Python `a or b` on optional strings (an absent key and an empty string
are both falsy). -/
def pyOrStr (a b : Option Chars) : Option Chars :=
  match a with
  | some s => if s = [] then b else some s
  | none => b

/-- Effective digest of a descriptor: `layer.get('digest') or
layer.get('blobSum')` followed by the `if digest:` truthiness test. -/
def effectiveDigest (l : LayerDesc) : Option Chars :=
  match pyOrStr l.digest l.blobSum with
  | some s => if s = [] then none else some s
  | none => none

def sha256Marker : Chars := ['s', 'h', 'a', '2', '5', '6', ':']

/-- Blob file name of a digest: the `sha256:` marker is stripped
(`digest[7:]`). -/
def stripSha (d : Chars) : Chars :=
  if startsWith d sha256Marker then d.drop 7 else d

/-- Manifest fields inspected by `_download_layers`. -/
structure ManifestM where
  layers : List LayerDesc
  config : Option LayerDesc
  fsLayers : List LayerDesc

/-- Descriptor list `_download_layers` iterates over: `layers` plus the
config descriptor when `layers` is non-empty, else `fsLayers`, else a
`ValueError`. -/
def collect_blobs (m : ManifestM) : Except String (List LayerDesc) :=
  if m.layers ≠ [] then
    Except.ok (m.layers ++ (match m.config with | some c => [c] | none => []))
  else if m.fsLayers ≠ [] then Except.ok m.fsLayers
  else Except.error "no layers"

/-- Download loop of `_download_layers`. The first component is the set of
file names present in `blobs/sha256` (a fetch creates the file), the second
the digests fetched over the network, in order; a blob whose file already
exists (`os.path.exists(blob_path)`) is never fetched. -/
def download_layers : List Chars → List LayerDesc → List Chars × List Chars
  | existing, [] => (existing, [])
  | existing, l :: rest =>
    match effectiveDigest l with
    | none => download_layers existing rest
    | some d =>
      if stripSha d ∈ existing then download_layers existing rest
      else
        ((download_layers (stripSha d :: existing) rest).1,
          d :: (download_layers (stripSha d :: existing) rest).2)

/-- Environment of the device-node loop in `_optimize_for_proot`: whether
`os.mknod` exists (`hasattr(os, 'mknod')`), whether a `mknod` call at a path
succeeds, and whether opening the path for writing succeeds. -/
structure DevEnv where
  hasMknod : Bool
  mknodOk : String → Bool
  writeOk : String → Bool

/-- Contents of the `dev/` directory. -/
inductive DevEntry where
  | charDev
  | regularEmpty
  | other
deriving DecidableEq

abbrev DevFS := List (String × DevEntry)

def lookupDev : DevFS → String → Option DevEntry
  | [], _ => none
  | (q, e) :: rest, p => if q = p then some e else lookupDev rest p

/-- One iteration of the device loop of `_optimize_for_proot`: existing
paths are skipped; with `os.mknod` available it is tried and any `OSError`
is swallowed (creating nothing on failure); without `os.mknod` an empty
placeholder file is written, a failing open being swallowed likewise. In no
branch does the iteration raise. -/
def create_device_node (env : DevEnv) (fs : DevFS) (name : String) : DevFS :=
  match lookupDev fs name with
  | some _ => fs
  | none =>
    if env.hasMknod then
      if env.mknodOk name then (name, DevEntry.charDev) :: fs else fs
    else
      if env.writeOk name then (name, DevEntry.regularEmpty) :: fs else fs

/-- `essential_devs` of `_optimize_for_proot` (all of type `c`). -/
def essential_devs : List String := ["null", "zero", "random", "urandom"]

/-- Device-node part of `DockerImageToRootFS._optimize_for_proot`. -/
def optimize_for_proot_devices (env : DevEnv) (fs : DevFS) : DevFS :=
  essential_devs.foldl (fun acc n => create_device_node env acc n) fs

/-- Python `s.split(c, 1)` — split at the first occurrence of `c`, `none`
when `c` does not occur. -/
def splitFirst (c : Char) : Chars → Option (Chars × Chars)
  | [] => none
  | x :: xs =>
    if x = c then some ([], xs)
    else
      match splitFirst c xs with
      | some p => some (x :: p.1, p.2)
      | none => none

/-- Python `s.split(c)` (split on every occurrence). -/
def splitAllAux (c : Char) : Chars → Chars → List Chars
  | [], acc => [acc.reverse]
  | x :: xs, acc =>
    if x = c then acc.reverse :: splitAllAux c xs []
    else splitAllAux c xs (x :: acc)

def splitAll (c : Char) (l : Chars) : List Chars := splitAllAux c l []

def isPyWs (c : Char) : Bool :=
  c = ' ' || c = '\t' || c = '\n' || c = '\r' || c = '\x0b' || c = '\x0c'

/-- Python `s.strip()`. -/
def stripWs (l : Chars) : Chars :=
  ((l.dropWhile isPyWs).reverse.dropWhile isPyWs).reverse

/-- Python `s.strip('"')`. -/
def stripQuotes (l : Chars) : Chars :=
  ((l.dropWhile (fun c => c = '"')).reverse.dropWhile (fun c => c = '"')).reverse

/-- Python dict assignment `d[k] = v` for the `auth_info` dict. -/
def dictSet : List (Chars × Chars) → Chars → Chars → List (Chars × Chars)
  | [], k, v => [(k, v)]
  | (k0, v0) :: rest, k, v =>
    if k0 = k then (k0, v) :: rest else (k0, v0) :: dictSet rest k v

def dictGet : List (Chars × Chars) → Chars → Option Chars
  | [], _ => none
  | (k0, v0) :: rest, k => if k0 = k then some v0 else dictGet rest k

/-- `auth_info` construction loop of `_get_auth_token`: items with `=` are
split once, the key whitespace-stripped and the value quote-stripped. -/
def parse_bearer_items (items : List Chars) : List (Chars × Chars) :=
  items.foldl (fun acc item =>
    match splitFirst '=' item with
    | some p => dictSet acc (stripWs p.1) (stripQuotes p.2)
    | none => acc) []

/-- Outcome of the token `curl` call plus `json.loads`, as seen by the `try`
block of `_get_auth_token`. -/
inductive TokenOutcome where
  | curlError
  | badJson
  | parsed (token : Option Chars)

/-- Network environment: the result of requesting a token URL. -/
structure AuthEnv where
  tokenRequest : Chars → TokenOutcome

def bearerMarker : Chars := ['B', 'e', 'a', 'r', 'e', 'r', ' ']
def realmKey : Chars := ['r', 'e', 'a', 'l', 'm']
def serviceKey : Chars := ['s', 'e', 'r', 'v', 'i', 'c', 'e']
def scopeKey : Chars := ['s', 'c', 'o', 'p', 'e']
def serviceEq : Chars := ['s', 'e', 'r', 'v', 'i', 'c', 'e', '=']
def scopeEq : Chars := ['s', 'c', 'o', 'p', 'e', '=']

/-- Python `'&'.join`. -/
def joinAmp : List Chars → Chars
  | [] => []
  | [x] => x
  | x :: y :: rest => x ++ '&' :: joinAmp (y :: rest)

/-- Query parameters appended to the realm (`service=...`, `scope=...`). -/
def auth_params (info : List (Chars × Chars)) : List Chars :=
  (match dictGet info serviceKey with
   | some s => [serviceEq ++ s]
   | none => []) ++
  (match dictGet info scopeKey with
   | some s => [scopeEq ++ s]
   | none => [])

/-- Token URL built by `_get_auth_token` from the realm and parameters. -/
def build_auth_url (info : List (Chars × Chars)) (realm : Chars) : Chars :=
  if auth_params info ≠ [] then realm ++ '?' :: joinAmp (auth_params info)
  else realm

/-- Embedding of `DockerRegistryClient._get_auth_token`: parse the
`WWW-Authenticate` header, build the token URL from `realm`/`service`/
`scope`, request it, and return `token_data.get('token')`; a failing `curl`
(`CalledProcessError`) or unparseable body (`JSONDecodeError`) is caught and
yields `none`. -/
def get_auth_token (env : AuthEnv) (hdr : Chars) : Option Chars :=
  if hdr = [] then none
  else if startsWith hdr bearerMarker then
    match dictGet (parse_bearer_items (splitAll ',' (hdr.drop 7))) realmKey with
    | some realm =>
      match env.tokenRequest
          (build_auth_url (parse_bearer_items (splitAll ',' (hdr.drop 7))) realm) with
      | TokenOutcome.curlError => none
      | TokenOutcome.badJson => none
      | TokenOutcome.parsed t => t
    | none => none
  else none

/-- Per-pull auth state (`self.auth_token`). -/
structure RegistrySession where
  authToken : Option Chars

def userAgentKey : Chars := ['U', 's', 'e', 'r', '-', 'A', 'g', 'e', 'n', 't']
def acceptKey : Chars := ['A', 'c', 'c', 'e', 'p', 't']
def authorizationKey : Chars :=
  ['A', 'u', 't', 'h', 'o', 'r', 'i', 'z', 'a', 't', 'i', 'o', 'n']

/-- Header list of the final request command built by
`_make_registry_request`: `User-Agent`, optional `Accept`, and
`Authorization: Bearer <token>` only when a token is held. -/
def request_headers (tok : Option Chars) (ua : Chars) (accept : Option Chars) :
    List (Chars × Chars) :=
  [(userAgentKey, ua)] ++
  (match accept with | some a => [(acceptKey, a)] | none => []) ++
  (match tok with
   | some t => [(authorizationKey, bearerMarker ++ t)]
   | none => [])

/-- Auth flow of `DockerRegistryClient._make_registry_request`: with no
cached token, the probe's `WWW-Authenticate` header (if any) drives
`_get_auth_token`; a `none` result only logs a warning and leaves the
session unauthenticated, and the actual request is then issued without an
`Authorization` header. -/
def make_registry_request (env : AuthEnv) (s : RegistrySession)
    (probeHeader : Option Chars) (ua : Chars) (accept : Option Chars) :
    RegistrySession × List (Chars × Chars) :=
  let s1 :=
    if s.authToken.isSome then s
    else
      match probeHeader with
      | some hdr =>
        match get_auth_token env hdr with
        | some t => ⟨some t⟩
        | none => s
      | none => s
  (s1, request_headers s1.authToken ua accept)

/-- Python `s.rsplit(c, 1)` — split at the last occurrence of `c`. -/
def splitLast (c : Char) (l : Chars) : Option (Chars × Chars) :=
  match splitFirst c l.reverse with
  | some p => some (p.2.reverse, p.1.reverse)
  | none => none

/-- Python `s.rfind(c)`: index of the last occurrence, `-1` when absent. -/
def rfindIdx (c : Char) (l : Chars) : Int :=
  match splitLast c l with
  | some p => (p.1.length : Int)
  | none => -1

def dockerScheme : Chars := ['d', 'o', 'c', 'k', 'e', 'r', ':', '/', '/']
def httpScheme : Chars := ['h', 't', 't', 'p', ':', '/', '/']
def httpsScheme : Chars := ['h', 't', 't', 'p', 's', ':', '/', '/']
def defaultRegistryHost : Chars := "registry-1.docker.io".data
def latestTag : Chars := "latest".data
def libraryNs : Chars := "library/".data

/-- Step 1 of `_parse_image_url`: remove a `docker://` scheme when
present. -/
def strip_docker_scheme (l : Chars) : Chars :=
  if startsWith l dockerScheme then l.drop 9 else l

/-- Step 2 of `_parse_image_url`: separate the tag — split at the last `:`
only when it occurs after the last `/` (`last_colon > last_slash`, with
`rfind`'s `-1` for absent characters); the default tag is `latest`. -/
def split_tag (l : Chars) : Chars × Chars :=
  if ':' ∈ l ∧ rfindIdx ':' l > rfindIdx '/' l then
    match splitLast ':' l with
    | some p => p
    | none => (l, latestTag)
  else (l, latestTag)

/-- Step 3 of `_parse_image_url`: separate registry and image name.  A first
segment containing `.` or `:` is the registry and the remainder the image
name; otherwise the default registry is used with the whole string as image
name, single-segment names getting the `library/` namespace. -/
def split_registry (l : Chars) : Chars × Chars :=
  if '/' ∈ l then
    match splitFirst '/' l with
    | some p =>
      if '.' ∈ p.1 ∨ ':' ∈ p.1 then (p.1, p.2) else (defaultRegistryHost, l)
    | none => (defaultRegistryHost, libraryNs ++ l)
  else (defaultRegistryHost, libraryNs ++ l)

/-- Step 4 of `_parse_image_url`: ensure the registry has a scheme
(`registry.startswith(('http://', 'https://'))`). -/
def ensure_scheme (r : Chars) : Chars :=
  if startsWith r httpScheme || startsWith r httpsScheme then r
  else httpsScheme ++ r

/-- Embedding of `DockerImageToRootFS._parse_image_url`, returning
`(registry, image_name, tag)`. -/
def parse_image_url (input : Chars) : Chars × Chars × Chars :=
  (ensure_scheme (split_registry (split_tag (strip_docker_scheme input)).1).1,
   (split_registry (split_tag (strip_docker_scheme input)).1).2,
   (split_tag (strip_docker_scheme input)).2)

/-- Scheme removal used to reassemble a reference string from the normalized
registry URL: the parser's input grammar carries no `http(s)` scheme, so the
reference built from a triple is `host/repository:tag`. -/
def strip_scheme (r : Chars) : Chars :=
  if startsWith r httpsScheme then r.drop 8
  else if startsWith r httpScheme then r.drop 7
  else r

/-- Reference string reassembled from a normalized
`(registry, repository, tag)` triple. -/
def reassemble_ref (reg name tag : Chars) : Chars :=
  strip_scheme reg ++ '/' :: (name ++ ':' :: tag)

section AssocLemmas

theorem getk_append_of_some {o l : List (String × Json)} {k : String} {v : Json}
    (h : getk o k = some v) : getk (o ++ l) k = some v := by
  induction o with
  | nil => simp [getk] at h
  | cons p rest ih =>
    obtain ⟨k0, v0⟩ := p
    by_cases hk : k0 = k
    · simpa [getk, hk] using h
    · simp only [getk, hk, if_false, List.cons_append] at h ⊢
      exact ih h

theorem getk_append_of_none {o l : List (String × Json)} {k : String}
    (h : getk o k = none) : getk (o ++ l) k = getk l k := by
  induction o with
  | nil => simp
  | cons p rest ih =>
    obtain ⟨k0, v0⟩ := p
    by_cases hk : k0 = k
    · simp [getk, hk] at h
    · simp only [getk, hk, if_false, List.cons_append] at h ⊢
      exact ih h

theorem getk_setDefault_of_some {o : List (String × Json)} {k k' : String}
    {v : Json} {d : Json} (h : getk o k' = some v) :
    getk (setDefault o k d) k' = some v := by
  unfold setDefault
  by_cases hs : (getk o k).isSome = true
  · simp [hs, h]
  · rw [if_neg hs]
    exact getk_append_of_some h

theorem getk_setDefault_isSome {o : List (String × Json)} {k : String}
    {d : Json} : (getk (setDefault o k d) k).isSome := by
  unfold setDefault
  by_cases hs : (getk o k).isSome = true
  · simp [hs]
  · rw [if_neg hs]
    rw [getk_append_of_none (Option.not_isSome_iff_eq_none.mp hs)]
    simp [getk]

theorem getk_setDefault_of_absent {o : List (String × Json)} {k : String}
    {d : Json} (h : getk o k = none) : getk (setDefault o k d) k = some d := by
  unfold setDefault
  rw [if_neg (by simp [h])]
  rw [getk_append_of_none h]
  simp [getk]

theorem getk_setDefault_of_ne {o : List (String × Json)} {k k' : String}
    {d : Json} (h : k ≠ k') : getk (setDefault o k d) k' = getk o k' := by
  unfold setDefault
  by_cases hs : (getk o k).isSome = true
  · simp [hs]
  · rw [if_neg hs]
    cases hv : getk o k' with
    | some v => exact getk_append_of_some hv
    | none => rw [getk_append_of_none hv]; simp [getk, h]

theorem getk_setDefault_isSome_of_isSome {o : List (String × Json)}
    {k k' : String} {d : Json} (h : (getk o k').isSome) :
    (getk (setDefault o k d) k').isSome := by
  obtain ⟨v, hv⟩ := Option.isSome_iff_exists.mp h
  rw [getk_setDefault_of_some hv]
  rfl

theorem getk_setk_self (l : List (String × Json)) (k : String) (v : Json) :
    getk (setk l k v) k = some v := by
  induction l with
  | nil => simp [setk, getk]
  | cons p rest ih =>
    obtain ⟨k0, v0⟩ := p
    by_cases hk : k0 = k
    · simp [setk, getk, hk]
    · simp [setk, getk, hk, ih]

end AssocLemmas

/-- The manifest conversion leaves non-docker content types untouched
(the early `return manifest` of `_convert_manifest_to_oci`). -/
theorem convert_manifest_nondocker {m : List (String × Json)} {ct : String}
    (h : strContains ct "docker" = false) :
    convert_manifest_to_oci m ct = m := by
  unfold convert_manifest_to_oci
  simp [h]

/-- For docker content types the conversion ends by setting the manifest's
`mediaType` to the OCI manifest media type. -/
theorem convert_manifest_docker_mediaType {m : List (String × Json)}
    {ct : String} (h : strContains ct "docker" = true) :
    getk (convert_manifest_to_oci m ct) "mediaType" =
      some (Json.str ociManifestType) := by
  unfold convert_manifest_to_oci
  simp only [h]
  simp only [Bool.true_eq_false, if_false]
  exact getk_setk_self _ _ _

/-- A successful `find?` splits its list at the first element satisfying the
predicate. -/
theorem find_first_decomp {α : Type} (p : α → Bool) :
    ∀ (l : List α) (d : α), l.find? p = some d →
      ∃ pre post, l = pre ++ d :: post ∧ (∀ m ∈ pre, p m = false) ∧ p d = true := by
  intro l
  induction l with
  | nil => intro d h; simp at h
  | cons x rest ih =>
    intro d h
    by_cases hx : p x = true
    · rw [List.find?_cons_of_pos _ hx] at h
      have hxd : x = d := by injection h
      subst hxd
      exact ⟨[], rest, rfl, by simp, hx⟩
    · have hx' : p x = false := by simpa using hx
      rw [List.find?_cons_of_neg _ (by simp [hx'])] at h
      obtain ⟨pre, post, he, hpre, hd⟩ := ih d h
      refine ⟨x :: pre, post, by rw [he, List.cons_append], ?_, hd⟩
      intro m hm
      rcases List.mem_cons.mp hm with rfl | hm'
      · exact hx'
      · exact hpre m hm'

/-- An entry that matches has exactly the requested architecture. -/
theorem descMatches_arch {target : String} {m : MDesc}
    (h : descMatches target m = true) : archOf m = some target := by
  unfold descMatches at h
  rw [Bool.and_eq_true] at h
  exact of_decide_eq_true h.1

/-- C4: config normalization is total: the normalized object always carries
the keys `architecture`, `os`, `config`, `rootfs` and `history`; keys missing
in the input are defaulted to `amd64`, `linux`, an empty object,
`{type: layers, diff_ids: []}` and `[]` respectively, and keys present in the
input keep their input value. -/
theorem claim_c4 (c : List (String × Json)) :
    ((getk (convert_docker_config_to_oci c) "architecture").isSome ∧
      (getk (convert_docker_config_to_oci c) "os").isSome ∧
      (getk (convert_docker_config_to_oci c) "config").isSome ∧
      (getk (convert_docker_config_to_oci c) "rootfs").isSome ∧
      (getk (convert_docker_config_to_oci c) "history").isSome) ∧
    (∀ k v, getk c k = some v → getk (convert_docker_config_to_oci c) k = some v) ∧
    (getk c "architecture" = none →
      getk (convert_docker_config_to_oci c) "architecture" = some (Json.str "amd64")) ∧
    (getk c "os" = none →
      getk (convert_docker_config_to_oci c) "os" = some (Json.str "linux")) ∧
    (getk c "config" = none →
      getk (convert_docker_config_to_oci c) "config" = some (Json.obj [])) ∧
    (getk c "rootfs" = none →
      getk (convert_docker_config_to_oci c) "rootfs" = some defaultRootfs) ∧
    (getk c "history" = none →
      getk (convert_docker_config_to_oci c) "history" = some (Json.arr [])) := by
  unfold convert_docker_config_to_oci
  refine ⟨⟨?_, ?_, ?_, ?_, ?_⟩, ?_, ?_, ?_, ?_, ?_, ?_⟩
  · exact getk_setDefault_isSome_of_isSome (getk_setDefault_isSome_of_isSome
      (getk_setDefault_isSome_of_isSome (getk_setDefault_isSome_of_isSome
        getk_setDefault_isSome)))
  · exact getk_setDefault_isSome_of_isSome (getk_setDefault_isSome_of_isSome
      (getk_setDefault_isSome_of_isSome getk_setDefault_isSome))
  · exact getk_setDefault_isSome_of_isSome (getk_setDefault_isSome_of_isSome
      getk_setDefault_isSome)
  · exact getk_setDefault_isSome_of_isSome getk_setDefault_isSome
  · exact getk_setDefault_isSome
  · intro k v h
    exact getk_setDefault_of_some (getk_setDefault_of_some
      (getk_setDefault_of_some (getk_setDefault_of_some
        (getk_setDefault_of_some h))))
  · intro h
    exact getk_setDefault_of_some (getk_setDefault_of_some
      (getk_setDefault_of_some (getk_setDefault_of_some
        (getk_setDefault_of_absent h))))
  · intro h
    rw [getk_setDefault_of_ne (by decide), getk_setDefault_of_ne (by decide),
      getk_setDefault_of_ne (by decide)]
    exact getk_setDefault_of_absent (by rw [getk_setDefault_of_ne (by decide)]; exact h)
  · intro h
    rw [getk_setDefault_of_ne (by decide), getk_setDefault_of_ne (by decide)]
    exact getk_setDefault_of_absent (by
      rw [getk_setDefault_of_ne (by decide), getk_setDefault_of_ne (by decide)]; exact h)
  · intro h
    rw [getk_setDefault_of_ne (by decide)]
    exact getk_setDefault_of_absent (by
      rw [getk_setDefault_of_ne (by decide), getk_setDefault_of_ne (by decide),
        getk_setDefault_of_ne (by decide)]; exact h)
  · intro h
    exact getk_setDefault_of_absent (by
      rw [getk_setDefault_of_ne (by decide), getk_setDefault_of_ne (by decide),
        getk_setDefault_of_ne (by decide), getk_setDefault_of_ne (by decide)]; exact h)

/-- C4 witness: a config missing every key gets the default architecture, and
a config carrying an `os` value keeps it. -/
theorem claim_c4_witness :
    getk (convert_docker_config_to_oci []) "architecture" = some (Json.str "amd64") ∧
    getk (convert_docker_config_to_oci [("os", Json.str "android")]) "os" =
      some (Json.str "android") :=
  ⟨(claim_c4 []).2.2.1 rfl,
   (claim_c4 [("os", Json.str "android")]).2.1 "os" (Json.str "android") rfl⟩

/-- C5 counterexample: for an OCI response content type (no `docker`
substring), `_convert_manifest_to_oci` returns the manifest unchanged, so a
manifest whose `mediaType` is `x` keeps `x` — its `mediaType` is not
overwritten to the OCI manifest media type, refuting the claim for non-docker
content types. -/
theorem claim_c5_counterexample :
    getk (convert_manifest_to_oci [("mediaType", Json.str "x")]
        "application/vnd.oci.image.manifest.v1+json") "mediaType" ≠
      some (Json.str ociManifestType) := by
  intro h
  rw [convert_manifest_nondocker (by decide)] at h
  have he : getk [("mediaType", Json.str "x")] "mediaType" = some (Json.str "x") := rfl
  rw [he] at h
  injection h with h1
  injection h1 with h2
  exact absurd h2 (by decide)

/-- C5 (amended): only manifests whose response content type contains the
substring `docker` are rewritten; for those the manifest's own `mediaType` is
overwritten to the OCI manifest media type after rewriting the layer and
config media types, while manifests with any other content type are returned
unchanged. -/
theorem claim_c5 (m : List (String × Json)) (ct : String) :
    (strContains ct "docker" = true →
      getk (convert_manifest_to_oci m ct) "mediaType" = some (Json.str ociManifestType)) ∧
    (strContains ct "docker" = false → convert_manifest_to_oci m ct = m) :=
  ⟨fun h => convert_manifest_docker_mediaType h, fun h => convert_manifest_nondocker h⟩

/-- C5 witness: a Docker v2 manifest response gets the OCI manifest media
type. -/
theorem claim_c5_witness :
    getk (convert_manifest_to_oci []
        "application/vnd.docker.distribution.manifest.v2+json") "mediaType" =
      some (Json.str ociManifestType) :=
  (claim_c5 [] "application/vnd.docker.distribution.manifest.v2+json").1 (by decide)

/-- C6: when no manifest-list entry matches the requested architecture,
resolution raises an error whose payload lists the `platform.architecture`
value of every entry of the list. -/
theorem claim_c6 (target : String) (ms : List MDesc)
    (h : ∀ m ∈ ms, descMatches target m = false) :
    selectManifest target ms = Except.error (ms.map archOf) ∧
    (ms.map archOf).length = ms.length := by
  have hn : ms.find? (fun m => descMatches target m) = none :=
    List.find?_eq_none.mpr (fun x hx => by simp [h x hx])
  constructor
  · unfold selectManifest; rw [hn]
  · simp

/-- C6 witness: an `amd64` request against an `arm64`-only list fails with
both entries' architectures (including `none` for the entry without a
platform). -/
theorem claim_c6_witness :
    selectManifest "amd64" [⟨some ⟨some "arm64", some "linux"⟩, "sha256:a"⟩,
      (⟨none, "sha256:b"⟩ : MDesc)] = Except.error [some "arm64", none] :=
  (claim_c6 "amd64" [⟨some ⟨some "arm64", some "linux"⟩, "sha256:a"⟩,
      (⟨none, "sha256:b"⟩ : MDesc)] (by decide)).1

/-- C1 counterexample: a manifest list whose only entry has the requested
architecture but `os = windows` is not selected — resolution raises instead of
selecting the architecture-matching entry, refuting the claim that an
architecture match alone is always selected. -/
theorem claim_c1_counterexample :
    archOf (⟨some ⟨some "amd64", some "windows"⟩, "sha256:x"⟩ : MDesc) = some "amd64" ∧
    selectManifest "amd64"
        [(⟨some ⟨some "amd64", some "windows"⟩, "sha256:x"⟩ : MDesc)] =
      Except.error [some "amd64"] :=
  ⟨rfl, rfl⟩

/-- C1 (amended): for every manifest list containing an entry whose
`platform.architecture` equals the target and whose `platform.os` is `linux`
or absent, resolution deterministically selects the first such entry (all
earlier entries fail the match), that entry's architecture equals the target,
and its digest is the one used to re-request the concrete manifest. -/
theorem claim_c1 (target imageName : String) (ms : List MDesc)
    (h : ∃ m ∈ ms, descMatches target m = true) :
    ∃ d pre post, ms = pre ++ d :: post ∧
      (∀ m ∈ pre, descMatches target m = false) ∧
      descMatches target d = true ∧ archOf d = some target ∧
      selectManifest target ms = Except.ok d ∧
      resolve_submanifest_path imageName target ms =
        Except.ok (imageName ++ "/manifests/" ++ d.digest) := by
  have hs : ms.find? (fun m => descMatches target m) ≠ none := by
    intro hn
    obtain ⟨m, hm, hmt⟩ := h
    have := List.find?_eq_none.mp hn m hm
    simp [hmt] at this
  obtain ⟨d, hd⟩ := Option.ne_none_iff_exists'.mp hs
  obtain ⟨pre, post, he, hpre, hdt⟩ := find_first_decomp _ ms d hd
  refine ⟨d, pre, post, he, hpre, hdt, descMatches_arch hdt, ?_, ?_⟩
  · unfold selectManifest; rw [hd]
  · unfold resolve_submanifest_path selectManifest; rw [hd]

/-- C1 witness: with a non-matching `arm64` entry first, the `amd64`/`linux`
entry is selected and its digest drives the sub-manifest request. -/
theorem claim_c1_witness :
    ∃ d pre post,
      ([⟨some ⟨some "arm64", some "linux"⟩, "sha256:a"⟩,
        (⟨some ⟨some "amd64", some "linux"⟩, "sha256:b"⟩ : MDesc)] : List MDesc) =
        pre ++ d :: post ∧
      (∀ m ∈ pre, descMatches "amd64" m = false) ∧
      descMatches "amd64" d = true ∧ archOf d = some "amd64" ∧
      selectManifest "amd64" [⟨some ⟨some "arm64", some "linux"⟩, "sha256:a"⟩,
        (⟨some ⟨some "amd64", some "linux"⟩, "sha256:b"⟩ : MDesc)] = Except.ok d ∧
      resolve_submanifest_path "library/alpine" "amd64"
          [⟨some ⟨some "arm64", some "linux"⟩, "sha256:a"⟩,
           (⟨some ⟨some "amd64", some "linux"⟩, "sha256:b"⟩ : MDesc)] =
        Except.ok ("library/alpine" ++ "/manifests/" ++ d.digest) :=
  claim_c1 "amd64" "library/alpine" _ (by decide)

/-- Without `..` segments, path resolution only ever extends the
accumulated path. -/
theorem normSegs_no_dotdot :
    ∀ (segs : List Chars), (∀ s ∈ segs, s ≠ ['.', '.']) →
      ∀ acc, ∃ t, normSegs acc segs = acc ++ t := by
  intro segs
  induction segs with
  | nil => intro _ acc; exact ⟨[], by simp [normSegs]⟩
  | cons s rest ih =>
    intro h acc
    have hrest := fun x hx => h x (List.mem_cons_of_mem _ hx)
    have hs : s ≠ ['.', '.'] := h s (List.mem_cons_self _ _)
    by_cases h1 : s = [] ∨ s = ['.']
    · obtain ⟨t, ht⟩ := ih hrest acc
      refine ⟨t, ?_⟩
      rw [← ht]
      simp only [normSegs]
      rw [if_pos h1]
    · obtain ⟨t, ht⟩ := ih hrest (acc ++ [s])
      refine ⟨[s] ++ t, ?_⟩
      simp only [normSegs]
      rw [if_neg h1, if_neg hs, ht, List.append_assoc]

/-- A member the filter keeps has no `..` segment in its name. -/
theorem kept_member_no_dotdot {m : TarMember}
    (hsafe : isUnsafeName m = false) : ∀ s ∈ m.segs, s ≠ ['.', '.'] := by
  intro s hsm hcontra
  have hany : m.segs.any (fun s => containsSub ['.', '.'] s) = true :=
    List.any_eq_true.mpr ⟨s, hsm, by rw [hcontra]; decide⟩
  simp [isUnsafeName, hany] at hsafe

/-- Every path written while processing one member lies within the root. -/
theorem process_member_writes_within (root : List Chars) (fs : FS)
    (m : TarMember) : ∀ p ∈ (process_member root fs m).2, withinRoot root p := by
  intro p hp
  by_cases hf : extract_filter m = true
  · have hsafe : isUnsafeName m = false := by
      cases hk : m.kind <;> simp [extract_filter, hk] at hf <;> try exact hf
    have hnod := kept_member_no_dotdot hsafe
    obtain ⟨t, ht⟩ := normSegs_no_dotdot m.segs hnod root
    have hmem : p = normSegs root m.segs := by
      cases hk : m.kind
      case hardlink link =>
        simp [process_member, hf, hk, handle_hardlink] at hp
        cases hl : lookupFS fs (normSegs root link) <;> simp [hl] at hp
        case some e =>
          cases e <;> simp at hp
          case file c => exact hp
      case file c => simp [process_member, hf, hk] at hp; exact hp
      case dir => simp [process_member, hf, hk] at hp; exact hp
      case symlink tg => simp [process_member, hf, hk] at hp; exact hp
      case dev => simp [extract_filter, hk] at hf
      case fifo => simp [extract_filter, hk] at hf
    exact ⟨t, by rw [hmem, ht]⟩
  · unfold process_member at hp
    rw [if_neg hf] at hp
    simp at hp

/-- Every path written while extracting a member list lies within the
root. -/
theorem safe_extract_writes_within (root : List Chars) :
    ∀ (ms : List TarMember) (fs : FS),
      ∀ p ∈ (safe_extract_tar root fs ms).2, withinRoot root p := by
  intro ms
  induction ms with
  | nil => intro fs p hp; simp [safe_extract_tar] at hp
  | cons m rest ih =>
    intro fs p hp
    simp only [safe_extract_tar] at hp
    rcases List.mem_append.mp hp with h1 | h2
    · exact process_member_writes_within root fs m p h1
    · exact ih _ p h2

/-- C2: members named by an absolute path or containing a `..` segment are
rejected before any filesystem effect (the tree and the write list are
untouched), and every path the extraction does write extends the destination
rootfs root. -/
theorem claim_c2 (root : List Chars) (fs : FS) (ms : List TarMember) :
    (∀ m, (m.absolute = true ∨ ['.', '.'] ∈ m.segs) →
      process_member root fs m = (fs, [])) ∧
    (∀ p ∈ (safe_extract_tar root fs ms).2, withinRoot root p) := by
  constructor
  · intro m hm
    have hunsafe : isUnsafeName m = true := by
      rcases hm with h | h
      · simp [isUnsafeName, h]
      · unfold isUnsafeName
        have : m.segs.any (fun s => containsSub ['.', '.'] s) = true :=
          List.any_eq_true.mpr ⟨_, h, by decide⟩
        simp [this]
    have hfilter : extract_filter m = false := by
      cases hk : m.kind <;> simp [extract_filter, hk, hunsafe]
    simp [process_member, hfilter]
  · exact safe_extract_writes_within root ms fs

/-- C2 witness: a `..` member on an empty tree is a no-op, and the one path a
safe `etc` directory member writes stays under the root `r`. -/
theorem claim_c2_witness :
    process_member [['r']] [] ⟨[['.', '.']], false, MKind.file "x"⟩ = ([], []) ∧
    withinRoot [['r']] [['r'], ['e', 't', 'c']] :=
  ⟨(claim_c2 [['r']] [] []).1 ⟨[['.', '.']], false, MKind.file "x"⟩
      (Or.inr (by decide)),
   (claim_c2 [['r']] [] [⟨[['e', 't', 'c']], false, MKind.dir⟩]).2
      [['r'], ['e', 't', 'c']] (by decide)⟩

/-- C3: a hardlink member never creates a filesystem hardlink: when the link
target exists as a regular file, an ordinary regular file with byte-identical
content appears at the member's path; when the target does not exist yet the
member is skipped and the tree is unchanged (no error is raised — the
modelled function is total); and no `hardlinkTo` entry ever appears that was
not already in the tree. -/
theorem claim_c3 (root : List Chars) (fs : FS) (m : TarMember)
    (link : List Chars) (hk : m.kind = MKind.hardlink link)
    (hf : extract_filter m = true) :
    (∀ c, lookupFS fs (normSegs root link) = some (Entry.file c) →
      process_member root fs m =
        (insertFS fs (normSegs root m.segs) (Entry.file c),
          [normSegs root m.segs]) ∧
      lookupFS (process_member root fs m).1 (normSegs root m.segs) =
        some (Entry.file c)) ∧
    (lookupFS fs (normSegs root link) = none →
      process_member root fs m = (fs, [])) ∧
    (∀ p t, lookupFS (process_member root fs m).1 p = some (Entry.hardlinkTo t) →
      lookupFS fs p = some (Entry.hardlinkTo t)) := by
  have hpm : process_member root fs m = handle_hardlink root fs m link := by
    unfold process_member
    rw [if_pos hf, hk]
  refine ⟨?_, ?_, ?_⟩
  · intro c hc
    have h1 : process_member root fs m =
        (insertFS fs (normSegs root m.segs) (Entry.file c),
          [normSegs root m.segs]) := by
      rw [hpm]; unfold handle_hardlink; rw [hc]
    refine ⟨h1, ?_⟩
    rw [h1]
    simp [insertFS, lookupFS]
  · intro hc
    rw [hpm]; unfold handle_hardlink; rw [hc]
  · intro p t hp
    rw [hpm] at hp
    unfold handle_hardlink at hp
    cases hl : lookupFS fs (normSegs root link) <;> rw [hl] at hp
    case none => exact hp
    case some e =>
      cases e with
      | file c =>
        simp only [insertFS, lookupFS] at hp
        by_cases hq : normSegs root m.segs = p
        · rw [if_pos hq] at hp
          exact absurd hp (by simp)
        · rwa [if_neg hq] at hp
      | dir => exact hp
      | symlink tg => exact hp
      | hardlinkTo tg => exact hp

/-- C3 witness: a hardlink to the already-materialized file `a` produces a
regular-file copy at `b`. -/
theorem claim_c3_witness :
    process_member [] [([['a']], Entry.file "x")]
        ⟨[['b']], false, MKind.hardlink [['a']]⟩ =
      ([([['b']], Entry.file "x"), ([['a']], Entry.file "x")], [[['b']]]) :=
  ((claim_c3 [] [([['a']], Entry.file "x")]
    ⟨[['b']], false, MKind.hardlink [['a']]⟩ [['a']] rfl (by decide)).1 "x" rfl).1

/-- A digest whose blob file already exists is never among the fetched
digests. -/
theorem download_layers_not_refetched :
    ∀ (ls : List LayerDesc) (existing : List Chars) (d : Chars),
      stripSha d ∈ existing → d ∉ (download_layers existing ls).2 := by
  intro ls
  induction ls with
  | nil => intro ex d h; simp [download_layers]
  | cons l rest ih =>
    intro ex d h
    cases he : effectiveDigest l with
    | none =>
      simp only [download_layers, he]
      exact ih ex d h
    | some d' =>
      simp only [download_layers, he]
      by_cases hm : stripSha d' ∈ ex
      · rw [if_pos hm]; exact ih ex d h
      · rw [if_neg hm]
        intro hmem
        rcases List.mem_cons.mp hmem with rfl | hmem'
        · exact hm h
        · exact ih (stripSha d' :: ex) d (List.mem_cons_of_mem _ h) hmem'

/-- The blob directory only grows during the download loop. -/
theorem download_layers_mono :
    ∀ (ls : List LayerDesc) (existing : List Chars) (x : Chars),
      x ∈ existing → x ∈ (download_layers existing ls).1 := by
  intro ls
  induction ls with
  | nil => intro ex x h; simpa [download_layers] using h
  | cons l rest ih =>
    intro ex x h
    cases he : effectiveDigest l with
    | none =>
      simp only [download_layers, he]
      exact ih ex x h
    | some d' =>
      simp only [download_layers, he]
      by_cases hm : stripSha d' ∈ ex
      · rw [if_pos hm]; exact ih ex x h
      · rw [if_neg hm]
        exact ih (stripSha d' :: ex) x (List.mem_cons_of_mem _ h)

/-- After one pass, every descriptor's blob file exists. -/
theorem download_layers_complete :
    ∀ (ls : List LayerDesc) (existing : List Chars) (l : LayerDesc) (d : Chars),
      l ∈ ls → effectiveDigest l = some d →
      stripSha d ∈ (download_layers existing ls).1 := by
  intro ls
  induction ls with
  | nil => intro ex l d h; simp at h
  | cons l0 rest ih =>
    intro ex l d hl hd
    rcases List.mem_cons.mp hl with rfl | hl'
    · simp only [download_layers, hd]
      by_cases hm : stripSha d ∈ ex
      · rw [if_pos hm]; exact download_layers_mono rest ex _ hm
      · rw [if_neg hm]
        exact download_layers_mono rest _ _ (List.mem_cons_self _ _)
    · cases he : effectiveDigest l0 with
      | none =>
        simp only [download_layers, he]
        exact ih ex l d hl' hd
      | some d' =>
        simp only [download_layers, he]
        by_cases hm : stripSha d' ∈ ex
        · rw [if_pos hm]; exact ih ex l d hl' hd
        · rw [if_neg hm]
          exact ih (stripSha d' :: ex) l d hl' hd

/-- When every descriptor's blob file already exists, the loop fetches
nothing. -/
theorem download_layers_nofetch :
    ∀ (ls : List LayerDesc) (existing : List Chars),
      (∀ l ∈ ls, ∀ d, effectiveDigest l = some d → stripSha d ∈ existing) →
      (download_layers existing ls).2 = [] := by
  intro ls
  induction ls with
  | nil => intro ex _; simp [download_layers]
  | cons l rest ih =>
    intro ex h
    cases he : effectiveDigest l with
    | none =>
      simp only [download_layers, he]
      exact ih ex fun x hx => h x (List.mem_cons_of_mem _ hx)
    | some d =>
      simp only [download_layers, he]
      rw [if_pos (h l (List.mem_cons_self _ _) d he)]
      exact ih ex fun x hx => h x (List.mem_cons_of_mem _ hx)

/-- C7: blob download is idempotent. For the descriptor list of a manifest,
a digest whose blob file `blobs/sha256/<hex>` already exists is never
fetched, and a second pass over the same descriptor list after a first pass
fetches nothing at all. -/
theorem claim_c7 (existing : List Chars) (m : ManifestM) (ls : List LayerDesc)
    (_hcollect : collect_blobs m = Except.ok ls) :
    (∀ d, stripSha d ∈ existing → d ∉ (download_layers existing ls).2) ∧
    (download_layers (download_layers existing ls).1 ls).2 = [] := by
  constructor
  · intro d hd
    exact download_layers_not_refetched ls existing d hd
  · apply download_layers_nofetch
    intro l hl d hd
    exact download_layers_complete ls existing l d hl hd

/-- C7 witness: with blob `a` already on disk, the digest `sha256:a` is not
fetched, and a repeated pass fetches nothing. -/
theorem claim_c7_witness :
    (['s', 'h', 'a', '2', '5', '6', ':', 'a'] : Chars) ∉
      (download_layers [['a']]
        [⟨some ['s', 'h', 'a', '2', '5', '6', ':', 'a'], none⟩]).2 ∧
    (download_layers
      (download_layers [['a']]
        [⟨some ['s', 'h', 'a', '2', '5', '6', ':', 'a'], none⟩]).1
      [⟨some ['s', 'h', 'a', '2', '5', '6', ':', 'a'], none⟩]).2 = [] :=
  ⟨(claim_c7 [['a']]
      ⟨[⟨some ['s', 'h', 'a', '2', '5', '6', ':', 'a'], none⟩], none, []⟩
      [⟨some ['s', 'h', 'a', '2', '5', '6', ':', 'a'], none⟩] rfl).1
      ['s', 'h', 'a', '2', '5', '6', ':', 'a'] (by decide),
   (claim_c7 [['a']]
      ⟨[⟨some ['s', 'h', 'a', '2', '5', '6', ':', 'a'], none⟩], none, []⟩
      [⟨some ['s', 'h', 'a', '2', '5', '6', ':', 'a'], none⟩] rfl).2⟩

/-- Creating a device node at `n` does not disturb lookups at another
name. -/
theorem lookupDev_create_ne {env : DevEnv} {fs : DevFS} {n m : String}
    (h : n ≠ m) : lookupDev (create_device_node env fs n) m = lookupDev fs m := by
  unfold create_device_node
  cases hl : lookupDev fs n with
  | some e => rfl
  | none =>
    by_cases hk : env.hasMknod = true
    · rw [if_pos hk]
      by_cases ho : env.mknodOk n = true
      · rw [if_pos ho]; simp [lookupDev, h]
      · rw [if_neg ho]
    · rw [if_neg hk]
      by_cases ho : env.writeOk n = true
      · rw [if_pos ho]; simp [lookupDev, h]
      · rw [if_neg ho]

/-- Without `os.mknod`, a missing device whose placeholder write succeeds
gets an empty regular file. -/
theorem lookupDev_create_placeholder {env : DevEnv} {fs : DevFS} {n : String}
    (hmiss : lookupDev fs n = none) (hm : env.hasMknod = false)
    (hw : env.writeOk n = true) :
    lookupDev (create_device_node env fs n) n = some DevEntry.regularEmpty := by
  unfold create_device_node
  rw [hmiss, hm]
  simp [hw, lookupDev]

/-- C9 counterexample: in an environment where `os.mknod` exists but fails
(the unprivileged case, `PermissionError` swallowed by the `except`), no
placeholder file is created for the missing `dev/null` — refuting the claim
that unavailability of device-node creation always yields an empty regular
file. -/
theorem claim_c9_counterexample :
    lookupDev (optimize_for_proot_devices
      ⟨true, fun _ => false, fun _ => true⟩ []) "null" = none := rfl

/-- C9 (amended): when the `os.mknod` primitive is absent and the
placeholder write succeeds, each missing device name among `null`, `zero`,
`random`, `urandom` receives an empty regular file; all other failures are
swallowed (the modelled finalization step is total and never raises). -/
theorem claim_c9 (env : DevEnv) (fs : DevFS) (name : String)
    (hn : name ∈ essential_devs) (hmiss : lookupDev fs name = none)
    (hplat : env.hasMknod = false) (hw : env.writeOk name = true) :
    lookupDev (optimize_for_proot_devices env fs) name =
      some DevEntry.regularEmpty := by
  simp only [optimize_for_proot_devices, essential_devs, List.foldl]
  simp [essential_devs] at hn
  rcases hn with rfl | rfl | rfl | rfl
  · rw [lookupDev_create_ne (by decide), lookupDev_create_ne (by decide),
      lookupDev_create_ne (by decide)]
    exact lookupDev_create_placeholder hmiss hplat hw
  · rw [lookupDev_create_ne (by decide), lookupDev_create_ne (by decide)]
    exact lookupDev_create_placeholder
      (by rw [lookupDev_create_ne (by decide)]; exact hmiss) hplat hw
  · rw [lookupDev_create_ne (by decide)]
    exact lookupDev_create_placeholder
      (by rw [lookupDev_create_ne (by decide), lookupDev_create_ne (by decide)]
          exact hmiss) hplat hw
  · exact lookupDev_create_placeholder
      (by rw [lookupDev_create_ne (by decide), lookupDev_create_ne (by decide),
            lookupDev_create_ne (by decide)]
          exact hmiss) hplat hw

/-- C9 witness: with `os.mknod` absent, the missing `dev/zero` gets an empty
placeholder file. -/
theorem claim_c9_witness :
    lookupDev (optimize_for_proot_devices
      ⟨false, fun _ => false, fun _ => true⟩ []) "zero" =
      some DevEntry.regularEmpty :=
  claim_c9 ⟨false, fun _ => false, fun _ => true⟩ [] "zero"
    (by decide) rfl rfl rfl

/-- C10: when the bearer-token request fails (transport error or unparseable
JSON), `_get_auth_token` returns no token, the session stays
unauthenticated, and the subsequent registry request is issued without an
`Authorization` header instead of propagating the failure. -/
theorem claim_c10 (env : AuthEnv) (hdr ua : Chars) (accept : Option Chars)
    (hfail : ∀ u, env.tokenRequest u = TokenOutcome.curlError ∨
      env.tokenRequest u = TokenOutcome.badJson) :
    get_auth_token env hdr = none ∧
    make_registry_request env ⟨none⟩ (some hdr) ua accept =
      (⟨none⟩, request_headers none ua accept) ∧
    ∀ h ∈ request_headers none ua accept, h.1 ≠ authorizationKey := by
  have hget : get_auth_token env hdr = none := by
    unfold get_auth_token
    by_cases h0 : hdr = []
    · rw [if_pos h0]
    · rw [if_neg h0]
      by_cases hb : startsWith hdr bearerMarker = true
      · rw [if_pos hb]
        cases hr : dictGet (parse_bearer_items (splitAll ',' (hdr.drop 7)))
            realmKey with
        | none => rfl
        | some realm =>
          show (match env.tokenRequest (build_auth_url
              (parse_bearer_items (splitAll ',' (hdr.drop 7))) realm) with
            | TokenOutcome.curlError => none
            | TokenOutcome.badJson => none
            | TokenOutcome.parsed t => t) = none
          rcases hfail (build_auth_url
              (parse_bearer_items (splitAll ',' (hdr.drop 7))) realm) with
            hc | hc <;> rw [hc]
      · rw [if_neg hb]
  refine ⟨hget, ?_, ?_⟩
  · simp [make_registry_request, hget]
  · intro h hh
    cases accept with
    | none =>
      simp [request_headers] at hh
      subst hh
      show userAgentKey ≠ authorizationKey
      decide
    | some a =>
      simp [request_headers] at hh
      rcases hh with hh | hh
      · subst hh
        show userAgentKey ≠ authorizationKey
        decide
      · subst hh
        show acceptKey ≠ authorizationKey
        decide

/-- C10 witness: a token endpoint that always errors leaves the session
anonymous and the request without an `Authorization` header. -/
theorem claim_c10_witness :
    get_auth_token ⟨fun _ => TokenOutcome.curlError⟩
      ['B', 'e', 'a', 'r', 'e', 'r', ' ', 'r', 'e', 'a', 'l', 'm', '=', 'x'] =
      none ∧
    make_registry_request ⟨fun _ => TokenOutcome.curlError⟩ ⟨none⟩
        (some ['B', 'e', 'a', 'r', 'e', 'r', ' ', 'r', 'e', 'a', 'l', 'm', '=',
          'x']) [] none =
      (⟨none⟩, request_headers none [] none) ∧
    ∀ h ∈ request_headers none [] none, h.1 ≠ authorizationKey :=
  claim_c10 ⟨fun _ => TokenOutcome.curlError⟩
    ['B', 'e', 'a', 'r', 'e', 'r', ' ', 'r', 'e', 'a', 'l', 'm', '=', 'x'] []
    none (fun _ => Or.inl rfl)

theorem splitFirst_append_cons {c : Char} {b : Chars} :
    ∀ {a : Chars}, c ∉ a → splitFirst c (a ++ c :: b) = some (a, b) := by
  intro a
  induction a with
  | nil => intro _; simp [splitFirst]
  | cons x xs ih =>
    intro h
    have hx : x ≠ c := fun hc => h (hc ▸ List.mem_cons_self _ _)
    have hxs : c ∉ xs := fun hc => h (List.mem_cons_of_mem _ hc)
    simp only [List.cons_append, splitFirst, hx, if_false, List.append_eq]
    rw [ih hxs]

theorem splitFirst_eq_some {c : Char} :
    ∀ {l a b : Chars}, splitFirst c l = some (a, b) → l = a ++ c :: b ∧ c ∉ a := by
  intro l
  induction l with
  | nil => intro a b h; simp [splitFirst] at h
  | cons x xs ih =>
    intro a b h
    by_cases hx : x = c
    · rw [splitFirst, if_pos hx] at h
      obtain ⟨ha, hb⟩ : ([] : Chars) = a ∧ xs = b := by
        injection h with h'
        exact ⟨congrArg Prod.fst h', congrArg Prod.snd h'⟩
      subst ha; subst hb; subst hx
      exact ⟨rfl, by simp⟩
    · rw [splitFirst, if_neg hx] at h
      cases hs : splitFirst c xs with
      | none => rw [hs] at h; exact absurd h (by simp)
      | some p =>
        rw [hs] at h
        obtain ⟨ha, hb⟩ : x :: p.1 = a ∧ p.2 = b := by
          injection h with h'
          exact ⟨congrArg Prod.fst h', congrArg Prod.snd h'⟩
        subst ha; subst hb
        obtain ⟨he, hn⟩ := ih hs
        refine ⟨by rw [he, List.cons_append], ?_⟩
        intro hc
        rcases List.mem_cons.mp hc with hc' | hc'
        · exact hx hc'.symm
        · exact hn hc'

theorem splitFirst_of_mem {c : Char} :
    ∀ {l : Chars}, c ∈ l → ∃ p, splitFirst c l = some p := by
  intro l
  induction l with
  | nil => intro h; simp at h
  | cons x xs ih =>
    intro h
    by_cases hx : x = c
    · exact ⟨([], xs), by rw [splitFirst, if_pos hx]⟩
    · have hc : c ∈ xs := by
        rcases List.mem_cons.mp h with h' | h'
        · exact absurd h'.symm hx
        · exact h'
      obtain ⟨p, hp⟩ := ih hc
      exact ⟨(x :: p.1, p.2), by rw [splitFirst, if_neg hx, hp]⟩

theorem splitFirst_append_left {c : Char} {v : Chars} :
    ∀ {u : Chars}, c ∉ u →
      splitFirst c (u ++ v) =
        match splitFirst c v with
        | some p => some (u ++ p.1, p.2)
        | none => none := by
  intro u
  induction u with
  | nil =>
    intro _
    cases hs : splitFirst c v with
    | none => simp [hs]
    | some p => simp [hs]
  | cons x xs ih =>
    intro h
    have hx : x ≠ c := fun hc => h (hc ▸ List.mem_cons_self _ _)
    have hxs : c ∉ xs := fun hc => h (List.mem_cons_of_mem _ hc)
    simp only [List.cons_append, splitFirst, hx, if_false, List.append_eq]
    rw [ih hxs]
    cases hs : splitFirst c v with
    | none => rfl
    | some p => simp

theorem splitLast_append_cons {c : Char} {a b : Chars} (h : c ∉ b) :
    splitLast c (a ++ c :: b) = some (a, b) := by
  unfold splitLast
  have hrev : (a ++ c :: b).reverse = b.reverse ++ c :: a.reverse := by
    simp [List.reverse_append]
  rw [hrev, splitFirst_append_cons (by simpa using h)]
  simp

theorem splitLast_eq_some {c : Char} {l a b : Chars}
    (h : splitLast c l = some (a, b)) : l = a ++ c :: b ∧ c ∉ b := by
  unfold splitLast at h
  cases hs : splitFirst c l.reverse with
  | none => rw [hs] at h; exact absurd h (by simp)
  | some p =>
    rw [hs] at h
    obtain ⟨ha, hb⟩ : p.2.reverse = a ∧ p.1.reverse = b := by
      injection h with h'
      exact ⟨congrArg Prod.fst h', congrArg Prod.snd h'⟩
    obtain ⟨he, hn⟩ := splitFirst_eq_some hs
    constructor
    · have := congrArg List.reverse he
      simp only [List.reverse_reverse, List.reverse_append, List.reverse_cons,
        List.append_assoc] at this
      rw [this, ← ha, ← hb]
      simp
    · rw [← hb]
      simpa using hn

theorem splitLast_append_right {c : Char} {u v : Chars} (h : c ∉ v) :
    splitLast c (u ++ v) =
      match splitLast c u with
      | some p => some (p.1, p.2 ++ v)
      | none => none := by
  unfold splitLast
  rw [List.reverse_append, splitFirst_append_left (by simpa using h)]
  cases hs : splitFirst c u.reverse with
  | none => rfl
  | some p => simp

theorem splitLast_of_mem {c : Char} {l : Chars} (h : c ∈ l) :
    ∃ p, splitLast c l = some p := by
  obtain ⟨p, hp⟩ := splitFirst_of_mem (show c ∈ l.reverse by simpa using h)
  exact ⟨(p.2.reverse, p.1.reverse), by unfold splitLast; rw [hp]⟩

theorem startsWith_append (p t : Chars) : startsWith (p ++ t) p = true := by
  induction p with
  | nil => cases t <;> rfl
  | cons x xs ih => simp [startsWith, ih]

theorem startsWith_exists : ∀ {p l : Chars}, startsWith l p = true →
    ∃ t, l = p ++ t := by
  intro p
  induction p with
  | nil => intro l _; exact ⟨l, rfl⟩
  | cons x ps ih =>
    intro l h
    cases l with
    | nil => simp [startsWith] at h
    | cons y ys =>
      simp only [startsWith, Bool.and_eq_true] at h
      obtain ⟨t, ht⟩ := ih h.2
      have hyx : y = x := of_decide_eq_true h.1
      subst hyx
      exact ⟨t, by simp [ht]⟩

theorem mem_of_startsWith {l p : Chars} (h : startsWith l p = true) {x : Char}
    (hx : x ∈ p) : x ∈ l := by
  obtain ⟨t, rfl⟩ := startsWith_exists h
  exact List.mem_append_left _ hx

theorem split_tag_explicit {P tag : Chars} (hP : '/' ∈ P) (h3 : ':' ∉ tag)
    (h4 : '/' ∉ tag) : split_tag (P ++ ':' :: tag) = (P, tag) := by
  have hcolon : splitLast ':' (P ++ ':' :: tag) = some (P, tag) :=
    splitLast_append_cons h3
  have hcidx : rfindIdx ':' (P ++ ':' :: tag) = (P.length : Int) := by
    unfold rfindIdx; rw [hcolon]
  obtain ⟨q, hq⟩ := splitLast_of_mem hP
  obtain ⟨hqe, _⟩ := splitLast_eq_some (l := P) (a := q.1) (b := q.2)
    (by rw [hq])
  have hsidx : rfindIdx '/' (P ++ ':' :: tag) = (q.1.length : Int) := by
    unfold rfindIdx
    rw [splitLast_append_right (show '/' ∉ ':' :: tag by simp [h4]), hq]
  have hlen : q.1.length < P.length := by
    rw [hqe]
    simp [List.length_append]
  have hlt : rfindIdx '/' (P ++ ':' :: tag) < rfindIdx ':' (P ++ ':' :: tag) := by
    rw [hsidx, hcidx]
    exact_mod_cast hlen
  unfold split_tag
  rw [if_pos ⟨List.mem_append_right _ (List.mem_cons_self _ _), hlt⟩, hcolon]

theorem split_registry_explicit {host repo : Chars} (h1 : '/' ∉ host)
    (h2 : '.' ∈ host ∨ ':' ∈ host) :
    split_registry (host ++ '/' :: repo) = (host, repo) := by
  unfold split_registry
  rw [if_pos (List.mem_append_right _ (List.mem_cons_self _ _)),
    splitFirst_append_cons h1]
  dsimp only
  rw [if_pos h2]

theorem ensure_scheme_no_slash {r : Chars} (h : '/' ∉ r) :
    ensure_scheme r = httpsScheme ++ r := by
  have hb1 : startsWith r httpScheme = false := by
    cases hb : startsWith r httpScheme
    · rfl
    · exact absurd (mem_of_startsWith hb (by decide)) h
  have hb2 : startsWith r httpsScheme = false := by
    cases hb : startsWith r httpsScheme
    · rfl
    · exact absurd (mem_of_startsWith hb (by decide)) h
  unfold ensure_scheme
  rw [hb1, hb2]
  simp

theorem strip_scheme_https (host : Chars) :
    strip_scheme (httpsScheme ++ host) = host := by
  unfold strip_scheme
  rw [if_pos (startsWith_append httpsScheme host),
    show (8 : Nat) = httpsScheme.length from rfl, List.drop_left]

/-- A reference of the shape `host/repo:tag` with an explicit registry host
(containing `.` or `:`) and an explicit tag parses to the normalized
triple. -/
theorem parse_image_url_explicit {host repo tag : Chars}
    (h1 : '/' ∉ host) (h2 : '.' ∈ host ∨ ':' ∈ host)
    (h3 : ':' ∉ tag) (h4 : '/' ∉ tag)
    (h5 : startsWith (host ++ '/' :: (repo ++ ':' :: tag)) dockerScheme = false) :
    parse_image_url (host ++ '/' :: (repo ++ ':' :: tag)) =
      (httpsScheme ++ host, repo, tag) := by
  have hstrip : strip_docker_scheme (host ++ '/' :: (repo ++ ':' :: tag)) =
      host ++ '/' :: (repo ++ ':' :: tag) := by
    unfold strip_docker_scheme
    rw [h5]
    simp
  have htag : split_tag (host ++ '/' :: (repo ++ ':' :: tag)) =
      (host ++ '/' :: repo, tag) := by
    have hassoc : host ++ '/' :: (repo ++ ':' :: tag) =
        (host ++ '/' :: repo) ++ ':' :: tag := by simp
    rw [hassoc]
    exact split_tag_explicit
      (List.mem_append_right _ (List.mem_cons_self _ _)) h3 h4
  unfold parse_image_url
  rw [hstrip, htag]
  dsimp only
  rw [split_registry_explicit h1 h2]
  dsimp only
  rw [ensure_scheme_no_slash h1]

/-- C8: for every valid image reference `host/repo:tag` with an explicit
registry (a first segment containing `.` or `:`) and an explicit tag,
parsing is idempotent: re-parsing the reference string reassembled from the
normalized `(registry, repository, tag)` triple — `host/repo:tag`, with the
scheme the normalizer added to the registry URL removed again, since the
reference grammar carries no scheme — reproduces the same triple. -/
theorem claim_c8 (host repo tag : Chars)
    (h1 : '/' ∉ host) (h2 : '.' ∈ host ∨ ':' ∈ host)
    (h3 : ':' ∉ tag) (h4 : '/' ∉ tag)
    (h5 : startsWith (host ++ '/' :: (repo ++ ':' :: tag)) dockerScheme = false) :
    parse_image_url (reassemble_ref
        (parse_image_url (host ++ '/' :: (repo ++ ':' :: tag))).1
        (parse_image_url (host ++ '/' :: (repo ++ ':' :: tag))).2.1
        (parse_image_url (host ++ '/' :: (repo ++ ':' :: tag))).2.2) =
      parse_image_url (host ++ '/' :: (repo ++ ':' :: tag)) := by
  rw [parse_image_url_explicit h1 h2 h3 h4 h5]
  dsimp only
  unfold reassemble_ref
  rw [strip_scheme_https]
  exact parse_image_url_explicit h1 h2 h3 h4 h5

/-- C8 witness: the reference `r.io/ns/app:v1` (explicit registry and tag)
round-trips through normalization and re-parsing. -/
theorem claim_c8_witness :
    parse_image_url (reassemble_ref
        (parse_image_url (['r', '.', 'i', 'o'] ++ '/' ::
          (['n', 's', '/', 'a', 'p', 'p'] ++ ':' :: ['v', '1']))).1
        (parse_image_url (['r', '.', 'i', 'o'] ++ '/' ::
          (['n', 's', '/', 'a', 'p', 'p'] ++ ':' :: ['v', '1']))).2.1
        (parse_image_url (['r', '.', 'i', 'o'] ++ '/' ::
          (['n', 's', '/', 'a', 'p', 'p'] ++ ':' :: ['v', '1']))).2.2) =
      parse_image_url (['r', '.', 'i', 'o'] ++ '/' ::
        (['n', 's', '/', 'a', 'p', 'p'] ++ ':' :: ['v', '1'])) :=
  claim_c8 ['r', '.', 'i', 'o'] ['n', 's', '/', 'a', 'p', 'p'] ['v', '1']
    (by decide) (by decide) (by decide) (by decide) (by decide)

end AndroidDocker
